import Mathlib

/-! Formal model of `src/trading_bot.py`: the indicator engine
(`calculate_technical_indicators`, `calculate_RSI`, `calculate_MACD`),
the signal generator (`trading_strategy`) and the portfolio simulator
(`execute_orders`).

Prices and account amounts are modelled as exact rationals (`ℚ`).  A
pandas value that can be `NaN` (a missing/undefined entry) is modelled
as `Option ℚ` with `none` for `NaN`; pandas comparisons involving `NaN`
are `False`, which the model mirrors by making comparisons with `none`
fail.  Column operations are positional: the date index is strictly
increasing with no duplicates, so label-based writes coincide with
positional writes.
-/

namespace TradingBot

/-- Model of `Series.diff()`: first entry is `NaN` (`none`), entry `i ≥ 1` is
`xs[i] - xs[i-1]`. -/
def diff (xs : List ℚ) : List (Option ℚ) :=
  match xs with
  | [] => []
  | _ :: t => none :: t.zipWith (fun a b => some (a - b)) xs

/-- Model of `delta.where(delta > 0, 0)` from `calculate_RSI`: the positive part of
each delta; the leading `NaN` compares false against `0` and becomes `0`. -/
def gains (xs : List ℚ) : List ℚ :=
  (diff xs).map (fun d =>
    match d with
    | some v => if 0 < v then v else 0
    | none => 0)

/-- Model of `(-delta.where(delta < 0, 0))` from `calculate_RSI`: the magnitude of
each negative delta; the leading `NaN` becomes `0`. -/
def losses (xs : List ℚ) : List ℚ :=
  (diff xs).map (fun d =>
    match d with
    | some v => if v < 0 then -v else 0
    | none => 0)

/-- Model of `Series.rolling(window=w).mean()`: `NaN` (`none`) for the first `w-1`
positions, then the arithmetic mean of the trailing `w` entries. -/
def rollingMean (w : Nat) (xs : List ℚ) : List (Option ℚ) :=
  (List.range xs.length).map (fun i =>
    if i + 1 < w then none
    else some ((((xs.take (i + 1)).drop (i + 1 - w)).sum) / (w : ℚ)))

/-- One step of `RS = gain / loss; RSI = 100 - 100/(1 + RS)` under float
semantics: when both means are present and `loss ≠ 0` the value is exact
rational arithmetic; `gain/0` with `gain > 0` is `+inf`, which makes
`100 - 100/(1+inf) = 100`; `0/0` is `NaN` (`none`); a missing mean
propagates as `NaN`. -/
def rsiOfMeans (g l : Option ℚ) : Option ℚ :=
  match g, l with
  | some gv, some lv =>
    if lv = 0 then (if 0 < gv then some 100 else none)
    else some (100 - 100 / (1 + gv / lv))
  | _, _ => none

/-- Model of `calculate_RSI(data, window)` over the close column. -/
def calculate_RSI (xs : List ℚ) (w : Nat) : List (Option ℚ) :=
  (rollingMean w (gains xs)).zipWith rsiOfMeans (rollingMean w (losses xs))

/-- Recursive kernel of `Series.ewm(span, adjust=False).mean()`:
`y[i] = a*x[i] + (1-a)*y[i-1]`. -/
def ewmGo (a : ℚ) : ℚ → List ℚ → List ℚ
  | _, [] => []
  | prev, x :: t =>
    let y := a * x + (1 - a) * prev
    y :: ewmGo a y t

/-- Model of `Series.ewm(span, adjust=False).mean()`: seeded with the first entry,
smoothing factor `a = 2/(span+1)`. -/
def ewm (span : Nat) (xs : List ℚ) : List ℚ :=
  match xs with
  | [] => []
  | x :: t => x :: ewmGo (2 / ((span : ℚ) + 1)) x t

/-- Model of `calculate_MACD(data, 12, 26, 9)`: MACD line, signal line, histogram. -/
def calculate_MACD (xs : List ℚ) : List ℚ × List ℚ × List ℚ :=
  let shortEma := ewm 12 xs
  let longEma := ewm 26 xs
  let macd := shortEma.zipWith (fun a b => a - b) longEma
  let sig := ewm 9 macd
  let hist := macd.zipWith (fun a b => a - b) sig
  (macd, sig, hist)

/-- The pandas `DataFrame` as the pipeline sees it: the downloaded frame
has only price columns (`close`); the indicator columns are absent
(`none`) until `calculate_technical_indicators` assigns them in place. -/
structure Frame where
  close : List ℚ
  sma20 : Option (List (Option ℚ))
  sma50 : Option (List (Option ℚ))
  rsi : Option (List (Option ℚ))
  macd : Option (List ℚ)
  macdSignal : Option (List ℚ)
  macdHist : Option (List ℚ)
deriving DecidableEq

/-- Model of `calculate_technical_indicators(data)`: the column assignments
`data["SMA_20"] = ...`, …, mutate the frame of the caller in place; the
function value is the state of that frame after the call. -/
def calculate_technical_indicators (d : Frame) : Frame :=
  { d with
    sma20 := some (rollingMean 20 d.close)
    sma50 := some (rollingMean 50 d.close)
    rsi := some (calculate_RSI d.close 14)
    macd := some (calculate_MACD d.close).1
    macdSignal := some (calculate_MACD d.close).2.1
    macdHist := some (calculate_MACD d.close).2.2 }

/-- Elementwise pandas `>` on possibly-`NaN` operands: any comparison
with `NaN` is `False`. -/
def gtO : Option ℚ → Option ℚ → Bool
  | some a, some b => decide (b < a)
  | _, _ => false

/-- One row of the indicator columns read by `trading_strategy`. -/
structure IndRow where
  sma20 : Option ℚ
  sma50 : Option ℚ
  rsi : Option ℚ
  macd : Option ℚ
  macdSignal : Option ℚ
deriving DecidableEq

/-- The per-row effect of the four sequential masked assignments in
`trading_strategy`: start at `0.0`, later assignments overwrite earlier
ones when their mask holds at this row. -/
def signalAt (r : IndRow) : ℚ :=
  let s : ℚ := 0
  let s := if gtO r.sma20 r.sma50 then 1 else s
  let s := if gtO r.rsi (some 70) then -1 else s
  let s := if gtO r.macd r.macdSignal then 1 else s
  let s := if gtO r.macdSignal r.macd then -1 else s
  s

/-- The `signal` column of `trading_strategy`, built row by row from the
five indicator columns (aligned positionally). -/
def signalList : List (Option ℚ) → List (Option ℚ) → List (Option ℚ) →
    List ℚ → List ℚ → List ℚ
  | a :: as, b :: bs, c :: cs, d :: ds, e :: es =>
    signalAt ⟨a, b, c, some d, some e⟩ :: signalList as bs cs ds es
  | _, _, _, _, _ => []

/-- Model of `trading_strategy(data)`: the `signal` column and the `positions`
column (`signals["signal"].diff()`). -/
def trading_strategy (sma20 sma50 rsi : List (Option ℚ))
    (macd macdSignal : List ℚ) : List ℚ × List (Option ℚ) :=
  let s := signalList sma20 sma50 rsi macd macdSignal
  (s, diff s)

/-- Model of `generate_signals(calculate_technical_indicators(download))`: the
full signal pipeline from a close-price series. -/
def pipelineSignals (close : List ℚ) : List ℚ × List (Option ℚ) :=
  let f := calculate_technical_indicators
    (Frame.mk close none none none none none none)
  trading_strategy (f.sma20.getD []) (f.sma50.getD []) (f.rsi.getD [])
    (f.macd.getD []) (f.macdSignal.getD [])

/-- One row of the `portfolio` frame built by `execute_orders`. -/
structure Row where
  cash : ℚ
  holdings : ℚ
  total : ℚ
deriving DecidableEq

/-- Iteration `i` of the `execute_orders` loop, writing row `i+1` of
`portfolio`.  `prev` is row `i` (already final), `pos` is
`signals["positions"].iloc[i]` (`none` for `NaN`), `cl` is
`data["Close"].iloc[i]`.  Rows not written by the buy (`== 1.0`) or sell
(`== -1.0`) branch keep the initialisation `cash = initial_capital`,
`holdings = 0.0` — the loop never copies row `i` forward.  The `total`
assignment always runs, with the close of the trigger step. -/
def stepRow (c0 : ℚ) (prev : Row) (pos : Option ℚ) (cl : ℚ) : Row :=
  let ch : ℚ × ℚ :=
    if pos = some 1 then (0, prev.cash / cl)
    else if pos = some (-1) then (prev.holdings * cl, 0)
    else (c0, 0)
  ⟨ch.1, ch.2, ch.1 + ch.2 * cl⟩

/-- Rows `1..N-1` of the portfolio: the loop body applied in temporal
order, consuming `positions[i]` and `close[i]` in lockstep. -/
def simRows (c0 : ℚ) : Row → List (Option ℚ) → List ℚ → List Row
  | prev, p :: ps, cl :: cls =>
    let nxt := stepRow c0 prev p cl
    nxt :: simRows c0 nxt ps cls
  | _, _, _ => []

/-- Model of `execute_orders(data, signals, initial_capital)`.  The `portfolio`
frame starts with every row at `(initial_capital, 0.0, initial_capital)`;
the loop runs over trigger indices `0..N-2` (`range(len(signals)-1)`)
and each iteration reads `data["Close"].iloc[i]` and `data.index[i+1]`,
so with fewer price rows than signal rows (and at least one loop
iteration) the run aborts with an out-of-range access (`none`). -/
def execute_orders (close : List ℚ) (positions : List (Option ℚ))
    (c0 : ℚ) : Option (List Row) :=
  if 2 ≤ positions.length ∧ close.length < positions.length then none
  else if positions.length = 0 then some []
  else some (Row.mk c0 0 c0 :: simRows c0 (Row.mk c0 0 c0) positions.dropLast close)

/-- The signal cascade as the spec words it, on fully defined indicator
values: "default 0; SMA_20 > SMA_50 → +1; RSI > 70 → −1;
MACD > MACD_signal → +1; MACD < MACD_signal → −1", later rules
overwriting earlier ones.  Companion definition for the refinement
theorem; `signalAt` is the one translated from the code. -/
def specSignal (sma20 sma50 rsi macd macdSig : ℚ) : ℚ :=
  let s : ℚ := 0
  let s := if sma20 > sma50 then 1 else s
  let s := if rsi > 70 then -1 else s
  let s := if macd > macdSig then 1 else s
  let s := if macd < macdSig then -1 else s
  s

/-- Sum of a prefix of the `positions` column with the undefined (`NaN`)
entries contributing `0` — the reading under which the
telescoping identity holds. -/
def sumPC (l : List (Option ℚ)) : ℚ :=
  (l.map (fun o => o.getD 0)).sum

end TradingBot

namespace TradingBot

/-! ### Helper lemmas -/

theorem gtO_none_left (b : Option ℚ) : gtO none b = false := by
  cases b <;> rfl

theorem gtO_none_right (a : Option ℚ) : gtO a none = false := by
  cases a <;> rfl

theorem stepRow_total (c0 : ℚ) (prev : Row) (pos : Option ℚ) (cl : ℚ) :
    (stepRow c0 prev pos cl).total =
      (stepRow c0 prev pos cl).cash + (stepRow c0 prev pos cl).holdings * cl :=
  rfl

theorem stepRow_nonneg (c0 : ℚ) (prev : Row) (pos : Option ℚ) (cl : ℚ)
    (hc0 : 0 ≤ c0) (hcash : 0 ≤ prev.cash) (hhold : 0 ≤ prev.holdings)
    (hcl : 0 < cl) :
    0 ≤ (stepRow c0 prev pos cl).cash ∧ 0 ≤ (stepRow c0 prev pos cl).holdings := by
  simp only [stepRow]
  split_ifs <;>
    exact ⟨by positivity, by positivity⟩

theorem simRows_length (c0 : ℚ) (prev : Row) (ps : List (Option ℚ))
    (cls : List ℚ) :
    (simRows c0 prev ps cls).length = min ps.length cls.length := by
  induction ps generalizing prev cls with
  | nil => simp [simRows]
  | cons p ps ih =>
    cases cls with
    | nil => simp [simRows]
    | cons cl cls =>
      simp only [simRows, List.length_cons, ih]
      omega

theorem simRows_total (c0 : ℚ) (prev : Row) (ps : List (Option ℚ))
    (cls : List ℚ) (i : Nat) (r : Row) (cl : ℚ)
    (hr : (simRows c0 prev ps cls).get? i = some r)
    (hcl : cls.get? i = some cl) :
    r.total = r.cash + r.holdings * cl := by
  induction ps generalizing prev cls i with
  | nil => simp [simRows] at hr
  | cons p ps ih =>
    cases cls with
    | nil => simp [simRows] at hr
    | cons cl0 cls =>
      cases i with
      | zero =>
        simp only [simRows, List.get?] at hr hcl
        cases hr; cases hcl
        exact stepRow_total c0 prev p cl
      | succ j =>
        simp only [simRows, List.get?] at hr hcl
        exact ih _ _ _ hr hcl

theorem simRows_nonneg (c0 : ℚ) (prev : Row) (ps : List (Option ℚ))
    (cls : List ℚ) (hc0 : 0 ≤ c0) (hcls : ∀ p ∈ cls, 0 < p)
    (hcash : 0 ≤ prev.cash) (hhold : 0 ≤ prev.holdings) :
    ∀ r ∈ simRows c0 prev ps cls, 0 ≤ r.cash ∧ 0 ≤ r.holdings := by
  induction ps generalizing prev cls with
  | nil => simp [simRows]
  | cons p ps ih =>
    cases cls with
    | nil => simp [simRows]
    | cons cl0 cls =>
      intro r hr
      have hcl0 : 0 < cl0 := hcls cl0 (List.mem_cons_self cl0 cls)
      have hstep := stepRow_nonneg c0 prev p cl0 hc0 hcash hhold hcl0
      simp only [simRows, List.mem_cons] at hr
      rcases hr with rfl | hr
      · exact hstep
      · exact ih _ _ (fun q hq => hcls q (List.mem_cons_of_mem _ hq))
          hstep.1 hstep.2 r hr

theorem sumPC_nil : sumPC [] = 0 := rfl

theorem sumPC_cons (o : Option ℚ) (l : List (Option ℚ)) :
    sumPC (o :: l) = o.getD 0 + sumPC l := by
  simp [sumPC]

theorem zip_telescope (t : List ℚ) (a : ℚ) (i : Nat) (hi : i < (a :: t).length) :
    sumPC ((t.zipWith (fun x y => some (x - y)) (a :: t)).take i) =
      (a :: t).get ⟨i, hi⟩ - a := by
  induction t generalizing a i with
  | nil =>
    have : i = 0 := by
      simp only [List.length_cons, List.length_nil] at hi
      omega
    subst this
    simp [sumPC]
  | cons x t ih =>
    cases i with
    | zero => simp [sumPC]
    | succ j =>
      have hj : j < (x :: t).length := by
        simp only [List.length_cons] at hi ⊢
        omega
      calc sumPC (((x :: t).zipWith (fun p q => some (p - q)) (a :: x :: t)).take (j + 1))
          = (x - a) + sumPC ((t.zipWith (fun p q => some (p - q)) (x :: t)).take j) := by
            simp [List.zipWith, sumPC_cons]
        _ = (x - a) + ((x :: t).get ⟨j, hj⟩ - x) := by rw [ih x j hj]
        _ = (a :: x :: t).get ⟨j + 1, hi⟩ - a := by
            show (x - a) + ((x :: t).get ⟨j, hj⟩ - x) = (x :: t).get ⟨j, hj⟩ - a
            ring

theorem gains_nonneg (xs : List ℚ) : ∀ x ∈ gains xs, 0 ≤ x := by
  intro x hx
  simp only [gains, List.mem_map] at hx
  obtain ⟨d, _, rfl⟩ := hx
  cases d with
  | none => exact le_refl 0
  | some v =>
    by_cases hv : 0 < v
    · simp only [hv, if_true]
      exact hv.le
    · simp only [hv, if_false]
      exact le_refl 0

theorem losses_nonneg (xs : List ℚ) : ∀ x ∈ losses xs, 0 ≤ x := by
  intro x hx
  simp only [losses, List.mem_map] at hx
  obtain ⟨d, _, rfl⟩ := hx
  cases d with
  | none => exact le_refl 0
  | some v =>
    by_cases hv : v < 0
    · simp only [hv, if_true]
      linarith
    · simp only [hv, if_false]
      exact le_refl 0

theorem rollingMean_get (w : Nat) (xs : List ℚ) (i : Nat) (hi : i < xs.length) :
    (rollingMean w xs).get? i =
      some (if i + 1 < w then none
        else some ((((xs.take (i + 1)).drop (i + 1 - w)).sum) / (w : ℚ))) := by
  simp [rollingMean, List.getElem?_map, List.getElem?_range hi]

theorem rollingMean_defined_nonneg (w : Nat) (xs : List ℚ) (i : Nat) (v : ℚ)
    (hxs : ∀ x ∈ xs, 0 ≤ x)
    (h : (rollingMean w xs).get? i = some (some v)) : 0 ≤ v := by
  by_cases hi : i < xs.length
  · rw [rollingMean_get w xs i hi] at h
    by_cases hw : i + 1 < w
    · simp [hw] at h
    · simp only [hw, if_false, Option.some.injEq] at h
      subst h
      apply div_nonneg
      · apply List.sum_nonneg
        intro x hx
        exact hxs x (List.mem_of_mem_take (List.mem_of_mem_drop hx))
      · exact_mod_cast Nat.zero_le w
  · have : (rollingMean w xs).get? i = none := by
      apply List.get?_eq_none.mpr
      simp [rollingMean]
      omega
    rw [this] at h
    exact absurd h (by simp)

theorem diff_head (s : List ℚ) (hs : s ≠ []) : (diff s).get? 0 = some none := by
  cases s with
  | nil => exact absurd rfl hs
  | cons a t => rfl

theorem diff_telescope (s : List ℚ) (i : Nat) (hi : i < s.length) :
    sumPC ((diff s).take (i + 1)) = s.get ⟨i, hi⟩ - s.headI := by
  cases s with
  | nil => simp at hi
  | cons a t =>
    show sumPC (none :: (t.zipWith (fun x y => some (x - y)) (a :: t)).take i) = _
    rw [sumPC_cons]
    simpa using zip_telescope t a i hi

/-! ### Claim theorems -/

/-- C1 (code bug witness): on `close = [10,10,10]`,
`position_change = [+1, 0, 0]`, `initial_cash = 100`, the loop buys at
step 0 (`cash[1] = 0`, `holdings[1] = 10`), but at the non-trigger step 1
row 2 keeps its initialisation `cash[2] = 100 = initial_cash`,
`holdings[2] = 0`, instead of carrying forward `cash[2] = cash[1] = 0`
and `holdings[2] = holdings[1] = 10` as the spec requires. -/
theorem execute_orders_no_carry_forward_bug :
    execute_orders [10, 10, 10] [some 1, some 0, some 0] 100 =
      some [⟨100, 0, 100⟩, ⟨0, 10, 100⟩, ⟨100, 0, 100⟩] ∧
    ¬ (100 : ℚ) = 0 := by
  constructor
  · norm_num [execute_orders, simRows, stepRow]
  · norm_num

/-- C5 (counterexample): `execute_orders` runs fine with
`initial_cash = -5 ≤ 0` on matched two-step series, returning a full
trajectory instead of failing with an InvalidParameter error. -/
theorem execute_orders_accepts_nonpositive_cash_cex :
    execute_orders [10, 10] [some 0, some 0] (-5) =
      some [⟨-5, 0, -5⟩, ⟨-5, 0, -5⟩] ∧ (-5 : ℚ) ≤ 0 := by
  constructor
  · norm_num [execute_orders, simRows, stepRow]
  · norm_num

/-- C5 (amended): `execute_orders` performs no parameter validation: for
any `initial_cash` whatsoever it produces a trajectory of the same length
as the signal series, and the only failure mode is an out-of-range price
access when the price series is shorter than a signal series of length at
least 2. -/
theorem execute_orders_no_validation (close : List ℚ)
    (positions : List (Option ℚ)) (c0 : ℚ) :
    ((execute_orders close positions c0).isSome ↔
      positions.length ≤ 1 ∨ positions.length ≤ close.length) ∧
    ∀ t, execute_orders close positions c0 = some t →
      t.length = positions.length := by
  unfold execute_orders
  split_ifs with h1 h2
  · refine ⟨by simpa using by omega, ?_⟩
    intro t ht
    exact absurd ht (by simp)
  · refine ⟨by simp [h2], ?_⟩
    intro t ht
    have : ([] : List Row) = t := by simpa using ht
    simp [← this, h2]
  · refine ⟨by simp; omega, ?_⟩
    intro t ht
    have ht2 : (Row.mk c0 0 c0 :: simRows c0 (Row.mk c0 0 c0)
        positions.dropLast close) = t := by simpa using ht
    rw [← ht2]
    simp only [List.length_cons, simRows_length, List.length_dropLast]
    omega

/-- C5 (amended, witness): the two-step run with nonpositive cash is
accepted (`isSome`) and its trajectory has length 2. -/
theorem execute_orders_no_validation_witness :
    ((execute_orders [10, 10] [some 0, some 0] (-5)).isSome ↔
      ([some 0, some 0] : List (Option ℚ)).length ≤ 1 ∨
        ([some 0, some 0] : List (Option ℚ)).length ≤
          ([10, 10] : List ℚ).length) ∧
    ([⟨-5, 0, -5⟩, ⟨-5, 0, -5⟩] : List Row).length =
      ([some 0, some 0] : List (Option ℚ)).length :=
  ⟨(execute_orders_no_validation [10, 10] [some 0, some 0] (-5)).1,
    (execute_orders_no_validation [10, 10] [some 0, some 0] (-5)).2
      [⟨-5, 0, -5⟩, ⟨-5, 0, -5⟩]
      (by norm_num [execute_orders, simRows, stepRow])⟩

/-- C8 (counterexample): `calculate_technical_indicators` does not leave
the frame of the caller unchanged: on a one-row downloaded frame (indicator
columns absent) the call assigns the indicator columns in place, so the
frame after the call differs from the frame before it. -/
theorem calculate_technical_indicators_mutates_frame_cex :
    calculate_technical_indicators
        (Frame.mk [100] none none none none none none) ≠
      Frame.mk [100] none none none none none none := by
  simp [calculate_technical_indicators, Frame.mk.injEq]

/-- C8 (amended): although `calculate_technical_indicators` adds
indicator columns to the frame of the caller in place, it never rewrites the
close-price column: the price series itself is unchanged by the
indicator engine. -/
theorem close_column_preserved (d : Frame) :
    (calculate_technical_indicators d).close = d.close := rfl

/-- C9: the simulator loop stops at trigger index `N-2`, so the output
depends only on `positions.dropLast`: two signal series of equal length
agreeing everywhere except possibly at the final index produce identical
portfolio trajectories. -/
theorem final_position_change_ignored (close : List ℚ)
    (positions positions2 : List (Option ℚ)) (c0 : ℚ)
    (hlen : positions.length = positions2.length)
    (hinit : positions.dropLast = positions2.dropLast) :
    execute_orders close positions c0 =
      execute_orders close positions2 c0 := by
  unfold execute_orders
  rw [hlen, hinit]

/-- C9 (witness): a buy trigger at the last step of a two-step series
produces the same trajectory as no trigger there. -/
theorem final_position_change_ignored_witness :
    execute_orders [10, 10] [some 0, some 1] 100 =
      execute_orders [10, 10] [some 0, some 0] 100 :=
  final_position_change_ignored [10, 10] [some 0, some 1] [some 0, some 0]
    100 rfl rfl

/-- C2 (counterexample): on the close series `[100, 90]` the frame of the pipeline has `SMA_20` undefined (`none`) at step 1 — as are `SMA_50` and
`RSI` — yet the generated signal there is `-1`, not `0`: the defined
`MACD < MACD_signal` rule still fires. -/
theorem undefined_indicator_nonzero_signal_cex :
    (calculate_technical_indicators
        (Frame.mk [100, 90] none none none none none none)).sma20 =
      some [none, none] ∧
    (pipelineSignals [100, 90]).1 = [0, -1] ∧ ¬ (-1 : ℚ) = 0 := by
  refine ⟨?_, ?_, by norm_num⟩
  · norm_num [calculate_technical_indicators, rollingMean, List.range_succ]
  · norm_num [pipelineSignals, calculate_technical_indicators,
      trading_strategy, calculate_MACD, calculate_RSI, ewm, ewmGo,
      rollingMean, gains, losses, diff, rsiOfMeans, signalList, signalAt,
      gtO, List.range_succ]

/-- C2 (amended): an undefined indicator value never triggers a rule
(pandas comparisons with `NaN` are false), so at a step whose `SMA_20`,
`RSI` and `MACD` entries are all undefined every rule fails and the
signal is `0`; but a step where only some indicators are undefined can
still receive a nonzero signal from the remaining defined rules. -/
theorem signal_zero_when_all_rules_undefined (r : IndRow)
    (h1 : r.sma20 = none) (h2 : r.rsi = none) (h3 : r.macd = none) :
    signalAt r = 0 := by
  simp [signalAt, h1, h2, h3, gtO_none_left, gtO_none_right]

/-- C2 (amended, witness): a row with `SMA_20`, `RSI` and `MACD`
undefined gets signal `0` even though `SMA_50` and `MACD_signal` carry
values. -/
theorem signal_zero_when_all_rules_undefined_witness :
    signalAt ⟨none, some 5, none, none, some 3⟩ = 0 :=
  signal_zero_when_all_rules_undefined ⟨none, some 5, none, none, some 3⟩
    rfl rfl rfl

/-- C3 (counterexample): running the pipeline on `[100, 90]`, the
`positions` column starts with `NaN` (`Series.diff()` leaves the first
entry undefined), not with the number `0`. -/
theorem first_position_change_undefined_cex :
    (pipelineSignals [100, 90]).2.get? 0 = some none ∧
      (some none : Option (Option ℚ)) ≠ some (some 0) := by
  constructor
  · norm_num [pipelineSignals, calculate_technical_indicators,
      trading_strategy, calculate_MACD, calculate_RSI, ewm, ewmGo,
      rollingMean, gains, losses, diff, rsiOfMeans, signalList, signalAt,
      gtO, List.range_succ]
  · simp

/-- C3 (amended): the first entry of the `positions` column produced by
`trading_strategy` is undefined (`NaN`), which the simulator treats as
non-triggering; reading undefined entries as `0`, the running sum of
`position_change[0..i]` telescopes to `signal[i] - signal[0]` for every
step `i`. -/
theorem position_change_first_undefined_and_telescoping
    (sma20 sma50 rsi : List (Option ℚ)) (macd macdSignal : List ℚ)
    (hs : (trading_strategy sma20 sma50 rsi macd macdSignal).1 ≠ []) :
    (trading_strategy sma20 sma50 rsi macd macdSignal).2.get? 0 =
      some none ∧
    ∀ i (hi :
        i < (trading_strategy sma20 sma50 rsi macd macdSignal).1.length),
      sumPC ((trading_strategy sma20 sma50 rsi macd macdSignal).2.take
          (i + 1)) =
        (trading_strategy sma20 sma50 rsi macd macdSignal).1.get ⟨i, hi⟩ -
          (trading_strategy sma20 sma50 rsi macd macdSignal).1.headI := by
  constructor
  · exact diff_head _ hs
  · intro i hi
    exact diff_telescope _ i hi

/-- C3 (amended, witness): on a concrete indicator set of length 2 the
first position change is undefined and the prefix sums telescope at both
steps. -/
theorem position_change_telescoping_witness :
    (trading_strategy [none, none] [none, none] [none, none] [0, 2]
        [1, 1]).2.get? 0 = some none ∧
    sumPC ((trading_strategy [none, none] [none, none] [none, none] [0, 2]
        [1, 1]).2.take 2) =
      (trading_strategy [none, none] [none, none] [none, none] [0, 2]
          [1, 1]).1.get ⟨1, by norm_num [trading_strategy, signalList]⟩ -
        (trading_strategy [none, none] [none, none] [none, none] [0, 2]
            [1, 1]).1.headI :=
  ⟨(position_change_first_undefined_and_telescoping [none, none]
      [none, none] [none, none] [0, 2] [1, 1]
      (by simp [trading_strategy, signalList])).1,
    (position_change_first_undefined_and_telescoping [none, none]
      [none, none] [none, none] [0, 2] [1, 1]
      (by simp [trading_strategy, signalList])).2 1
      (by norm_num [trading_strategy, signalList])⟩

/-- C7: on fully defined indicator rows the code signal equals the
spec five-rule cascade with later rules overwriting earlier ones, the
MACD comparison dominates whenever `MACD ≠ MACD_signal`, and every
signal value (defined indicators or not) lies in `{-1, 0, +1}`. -/
theorem signal_priority_order :
    (∀ a b c d e : ℚ,
      signalAt ⟨some a, some b, some c, some d, some e⟩ =
          specSignal a b c d e ∧
        (d ≠ e → signalAt ⟨some a, some b, some c, some d, some e⟩ =
          if d < e then -1 else 1)) ∧
    ∀ r : IndRow, signalAt r = -1 ∨ signalAt r = 0 ∨ signalAt r = 1 := by
  constructor
  · intro a b c d e
    constructor
    · simp [signalAt, specSignal, gtO]
    · intro hde
      rcases lt_trichotomy d e with h | h | h
      · simp [signalAt, gtO, h, h.not_lt]
      · exact absurd h hde
      · simp [signalAt, gtO, h, h.not_lt]
  · intro r
    simp only [signalAt]
    split_ifs <;> simp

/-- C7 (witness): with `SMA_20 > SMA_50` and `RSI > 70` both firing but
`MACD = 5 > 3 = MACD_signal`, the code value matches the spec cascade
and the MACD comparison wins, giving `+1`. -/
theorem signal_priority_order_witness :
    (signalAt ⟨some 2, some 1, some 80, some 5, some 3⟩ =
        specSignal 2 1 80 5 3 ∧
      signalAt ⟨some 2, some 1, some 80, some 5, some 3⟩ =
        if (5 : ℚ) < 3 then -1 else 1) ∧
    (signalAt ⟨some 2, some 1, some 80, some 5, some 3⟩ = -1 ∨
      signalAt ⟨some 2, some 1, some 80, some 5, some 3⟩ = 0 ∨
      signalAt ⟨some 2, some 1, some 80, some 5, some 3⟩ = 1) :=
  ⟨⟨(signal_priority_order.1 2 1 80 5 3).1,
      (signal_priority_order.1 2 1 80 5 3).2 (by norm_num)⟩,
    signal_priority_order.2 ⟨some 2, some 1, some 80, some 5, some 3⟩⟩

/-- C4 (counterexample): on a constant 14-step close series the RSI
window is full at step 13 and the trailing mean loss is `0`, but the
trailing mean gain is also `0`, so `RS = 0/0` is `NaN` and the RSI is
undefined (`none`) — not the numeric value 100. -/
theorem rsi_degenerate_nan_cex :
    (calculate_RSI
        [100, 100, 100, 100, 100, 100, 100, 100, 100, 100, 100, 100, 100,
          100] 14).get? 13 = some none ∧
    (rollingMean 14
        (losses
          [100, 100, 100, 100, 100, 100, 100, 100, 100, 100, 100, 100,
            100, 100])).get? 13 = some (some 0) := by
  constructor <;>
    norm_num [calculate_RSI, rollingMean, gains, losses, diff, rsiOfMeans,
      List.range_succ]

/-- C4 (amended): wherever the computed RSI is a defined value it lies in
`[0, 100]`; when the window is full, the trailing mean loss is `0` and
the trailing mean gain is positive, the RSI is exactly `100`; with mean
loss `0` and mean gain `0` it is undefined rather than `100`. -/
theorem rsi_bounds_and_saturation (xs : List ℚ) (w : Nat) (i : Nat) :
    (∀ r : ℚ, (calculate_RSI xs w).get? i = some (some r) →
      0 ≤ r ∧ r ≤ 100) ∧
    ∀ g : ℚ, (rollingMean w (losses xs)).get? i = some (some 0) →
      (rollingMean w (gains xs)).get? i = some (some g) → 0 < g →
      (calculate_RSI xs w).get? i = some (some 100) := by
  constructor
  · intro r h
    unfold calculate_RSI at h
    rw [List.get?_zipWith_eq_some] at h
    obtain ⟨g, l, hg, hl, heq⟩ := h
    cases g with
    | none => simp [rsiOfMeans] at heq
    | some gv =>
      cases l with
      | none => simp [rsiOfMeans] at heq
      | some lv =>
        have hgv : 0 ≤ gv :=
          rollingMean_defined_nonneg w (gains xs) i gv (gains_nonneg xs) hg
        have hlv : 0 ≤ lv :=
          rollingMean_defined_nonneg w (losses xs) i lv (losses_nonneg xs)
            hl
        by_cases h0 : lv = 0
        · by_cases hgpos : 0 < gv
          · simp only [rsiOfMeans, h0, hgpos, if_true,
              Option.some.injEq] at heq
            rw [← heq]
            norm_num
          · simp [rsiOfMeans, h0, hgpos] at heq
        · simp only [rsiOfMeans, h0, if_false, Option.some.injEq] at heq
          have hlv2 : 0 < lv := lt_of_le_of_ne hlv (Ne.symm h0)
          have hrs : 0 ≤ gv / lv := div_nonneg hgv hlv2.le
          have h1 : (1 : ℚ) ≤ 1 + gv / lv := by linarith
          have h2 : 100 / (1 + gv / lv) ≤ 100 :=
            div_le_self (by norm_num) h1
          have h3 : 0 < 100 / (1 + gv / lv) := by positivity
          constructor <;> linarith [heq]
  · intro g hl hg hgpos
    unfold calculate_RSI
    rw [List.get?_zipWith_eq_some]
    exact ⟨some g, some 0, hg, hl, by simp [rsiOfMeans, hgpos]⟩

/-- C4 (amended, witness): an alternating 14-step series gives the
defined value `RSI = 700/13 ∈ [0, 100]`, and a strictly increasing
14-step series (mean loss `0`, mean gain `13/14 > 0`) gives exactly
`100`. -/
theorem rsi_bounds_and_saturation_witness :
    (0 ≤ (700 : ℚ) / 13 ∧ (700 : ℚ) / 13 ≤ 100) ∧
    (calculate_RSI [1, 2, 3, 4, 5, 6, 7, 8, 9, 10, 11, 12, 13, 14]
        14).get? 13 = some (some 100) :=
  ⟨(rsi_bounds_and_saturation
      [10, 12, 10, 12, 10, 12, 10, 12, 10, 12, 10, 12, 10, 12] 14 13).1
      (700 / 13)
      (by norm_num [calculate_RSI, rollingMean, gains, losses, diff,
        rsiOfMeans, List.range_succ]),
    (rsi_bounds_and_saturation [1, 2, 3, 4, 5, 6, 7, 8, 9, 10, 11, 12, 13,
        14] 14 13).2 (13 / 14)
      (by norm_num [rollingMean, losses, diff, List.range_succ])
      (by norm_num [rollingMean, gains, diff, List.range_succ])
      (by norm_num)⟩

/-- C6: every transition of a produced trajectory satisfies
`total[i+1] = cash[i+1] + holdings[i+1] * close[i]` exactly, the close
price being that of the trigger step. -/
theorem portfolio_total_invariant (close : List ℚ)
    (positions : List (Option ℚ)) (c0 : ℚ) (t : List Row) (i : Nat)
    (r : Row) (cl : ℚ)
    (ht : execute_orders close positions c0 = some t)
    (hr : t.get? (i + 1) = some r) (hcl : close.get? i = some cl) :
    r.total = r.cash + r.holdings * cl := by
  unfold execute_orders at ht
  split_ifs at ht with h1 h2
  · injection ht with h3
    rw [← h3] at hr
    simp at hr
  · injection ht with ht2
    rw [← ht2] at hr
    have hr2 : (simRows c0 (Row.mk c0 0 c0) positions.dropLast
        close).get? i = some r := by simpa using hr
    exact simRows_total c0 _ _ _ i r cl hr2 hcl

/-- C6 (witness): after the buy at step 0 of a two-step run, row 1 is
`(cash, holdings, total) = (0, 10, 100)` and `100 = 0 + 10 * 10` with the
trigger-step close `10`. -/
theorem portfolio_total_invariant_witness :
    (Row.mk 0 10 100).total =
      (Row.mk 0 10 100).cash + (Row.mk 0 10 100).holdings * 10 :=
  portfolio_total_invariant [10, 10] [some 1, some 0] 100
    [⟨100, 0, 100⟩, ⟨0, 10, 100⟩] 0 (Row.mk 0 10 100) 10
    (by norm_num [execute_orders, simRows, stepRow]) rfl rfl

/-- C10: with nonnegative initial capital and strictly positive close
prices, every row of the produced trajectory has nonnegative cash and
nonnegative holdings. -/
theorem cash_holdings_nonneg (close : List ℚ)
    (positions : List (Option ℚ)) (c0 : ℚ) (t : List Row) (r : Row)
    (hc0 : 0 ≤ c0) (hcl : ∀ p ∈ close, 0 < p)
    (ht : execute_orders close positions c0 = some t) (hr : r ∈ t) :
    0 ≤ r.cash ∧ 0 ≤ r.holdings := by
  unfold execute_orders at ht
  split_ifs at ht with h1 h2
  · injection ht with h3
    rw [← h3] at hr
    simp at hr
  · injection ht with ht2
    rw [← ht2] at hr
    rcases List.mem_cons.mp hr with rfl | hr
    · exact ⟨hc0, le_refl 0⟩
    · exact simRows_nonneg c0 _ _ _ hc0 hcl hc0 (le_refl 0) r hr

/-- C10 (witness): the post-buy row `(0, 10, 100)` of the two-step run
has nonnegative cash and holdings. -/
theorem cash_holdings_nonneg_witness :
    0 ≤ (Row.mk 0 10 100).cash ∧ 0 ≤ (Row.mk 0 10 100).holdings :=
  cash_holdings_nonneg [10, 10] [some 1, some 0] 100
    [⟨100, 0, 100⟩, ⟨0, 10, 100⟩] (Row.mk 0 10 100) (by norm_num)
    (by
      intro p hp
      simp only [List.mem_cons, List.not_mem_nil, or_false] at hp
      rcases hp with rfl | rfl <;> norm_num)
    (by norm_num [execute_orders, simRows, stepRow])
    (List.mem_cons_of_mem _ (List.mem_cons_self _ _))

end TradingBot
